import Mathlib

/-!
Shallow embedding of the curve-matching core of `src/database.py`
(class `DataProcessor`): the best-fit selection `_find_best_fit`,
the per-test-point matcher `_find_best_match`, and the row loop of
`map_test_data`.  Floats are modelled as exact rationals; Python's
`float('inf')` initial minimum is modelled by an explicit `DevE.inf`
constructor; a pandas `KeyError` escaping the loop is modelled by
`Except.error ()`; a pandas `NaN` produced by an all-missing `.max()`
is modelled by `Option.none`.
-/

/-- Absolute value on ℚ, written so that it evaluates by kernel reduction. -/
def ratAbs (a : ℚ) : ℚ := if a < 0 then -a else a

/-- Binary maximum on ℚ, written so that it evaluates by kernel reduction. -/
def ratMax (a b : ℚ) : ℚ := if a ≤ b then b else a

/-- Mean squared error of a training series against a candidate column,
computed positionally, as `sklearn.metrics.mean_squared_error` does on
two equal-length columns: `(1/n) * Σ (t_i - c_i)^2`. -/
def mse (t c : List ℚ) : ℚ :=
  (((t.zip c).map fun p => (p.1 - p.2) * (p.1 - p.2)).sum) / (t.length : ℚ)

/-- One step of the scan in `DataProcessor._find_best_fit`: the accumulator
holds the current best column name and its MSE (`none` models the initial
state `min_mse = float('inf')`, `best_func = None`); a candidate replaces the
accumulator only when its MSE is strictly smaller (`if mse < min_mse`). -/
def bestFitStep (t : List ℚ) (acc : Option (String × ℚ)) (col : String × List ℚ) :
    Option (String × ℚ) :=
  let m := mse t col.2
  match acc with
  | none => some (col.1, m)
  | some p => if m < p.2 then some (col.1, m) else acc

/-- `DataProcessor._find_best_fit`: scan every column of the ideal-function
frame in order, keep the strictly smallest MSE, and return the winning
column name (`None` when there is no column). -/
def findBestFit (t : List ℚ) (cols : List (String × List ℚ)) : Option String :=
  (cols.foldl (bestFitStep t) none).map Prod.fst

/-- The ideal-function frame after `set_index('x')`: the x index and the
named y columns, each column positionally parallel to the index. -/
structure IdealDf where
  xs : List ℚ
  cols : List (String × List ℚ)

/-- Positional element lookup (pandas `.iloc`-style access into a column). -/
def nth? : List ℚ → ℕ → Option ℚ
  | [], _ => none
  | a :: _, 0 => some a
  | _ :: l, n + 1 => nth? l n

/-- First position of a label in an index (pandas unique-index lookup). -/
def idxOf? (x : ℚ) : List ℚ → Option ℕ
  | [] => none
  | a :: l => if a = x then some 0 else (idxOf? x l).map fun n => n + 1

/-- First column with a given name in a column list. -/
def colLookup (f : String) : List (String × List ℚ) → Option (List ℚ)
  | [] => none
  | c :: l => if c.1 = f then some c.2 else colLookup f l

/-- Column lookup `ideal_df[f]`: the first column with the given name. -/
def IdealDf.col (df : IdealDf) (f : String) : Option (List ℚ) :=
  colLookup f df.cols

/-- Scalar lookup `ideal_df.loc[x, f]`: `none` models the `KeyError` raised
when the column name or the x label is absent. -/
def IdealDf.locXY (df : IdealDf) (x : ℚ) (f : String) : Option ℚ :=
  match df.col f, idxOf? x df.xs with
  | some c, some i => nth? c i
  | _, _ => none

/-- The training frame read back from SQL: columns `y1..y4` on a pandas
RangeIndex `0..n-1` (the `x` column exists in the table but is never used by
`_find_best_fit` or `_find_best_match`). -/
structure TrainingDf where
  y1 : List ℚ
  y2 : List ℚ
  y3 : List ℚ
  y4 : List ℚ

/-- `training_df[f'y{idx+1}']` for a zero-based `idx`; `none` models the
`KeyError` for an out-of-range column. -/
def TrainingDf.col (td : TrainingDf) : ℕ → Option (List ℚ)
  | 0 => some td.y1
  | 1 => some td.y2
  | 2 => some td.y3
  | 3 => some td.y4
  | _ => none

/-- Label lookup into a RangeIndex-indexed series: a label `x` coming from
the ideal frame's x index hits the training series only when `x` is a
nonnegative integer below the series length. -/
def posLookup (t : List ℚ) (x : ℚ) : Option ℚ :=
  if x.den = 1 ∧ 0 ≤ x.num then nth? t x.num.toNat else none

/-- Maximum of a list of rationals (`none` on the empty list), modelling
pandas `Series.max()` after NaN entries have been dropped. -/
def listMax : List ℚ → Option ℚ
  | [] => none
  | a :: l =>
    match listMax l with
    | none => some a
    | some b => some (ratMax a b)

/-- `abs(training_df[f'y{idx+1}'] - ideal_df[f]).max()` as pandas evaluates
it: the subtraction aligns the RangeIndex labels `0..n-1` of the training
series with the x labels of the ideal column, producing NaN wherever a label
is missing on either side; `.max()` skips the NaNs and is itself NaN
(`none`) when no label is shared. -/
def alignedAbsMax (t : List ℚ) (xs c : List ℚ) : Option ℚ :=
  listMax ((xs.zip c).filterMap fun p => (posLookup t p.1).map fun tv => ratAbs (tv - p.2))

/-- The running minimum deviation of `_find_best_match`: `inf` models the
initial `min_deviation = float('inf')`. -/
inductive DevE where
  | inf : DevE
  | val : ℚ → DevE
deriving DecidableEq

/-- `deviation < min_deviation`; every finite deviation beats `inf`. -/
def devLtB (d : ℚ) : DevE → Bool
  | DevE.inf => true
  | DevE.val m => decide (d < m)

/-- `deviation <= max_allowed_deviation`, where `max_allowed_deviation =
sqrt(2) * m`: with both sides nonnegative this is the rational test
`d^2 ≤ 2 * m^2`; a NaN maximum (`none`) makes the comparison false, exactly
as a NaN comparison is false in Python. -/
def eligB (d : ℚ) : Option ℚ → Bool
  | none => false
  | some m => decide (d * d ≤ 2 * (m * m))

/-- One matcher entry `(idx + 1, candidate_y_at_x, max_abs_diff)`:
the data the loop body of `_find_best_match` derives for one element of
`best_fit_funcs`. -/
def devOf (y : ℚ) (e : ℕ × ℚ × Option ℚ) : ℚ := ratAbs (y - e.2.1)

/-- Whether an entry passes `deviation <= max_allowed_deviation`. -/
def eligE (y : ℚ) (e : ℕ × ℚ × Option ℚ) : Bool := eligB (devOf y e) e.2.2

/-- The conditional update of `_find_best_match`: record the entry as the
new best exactly when it is within tolerance and strictly below the running
minimum. -/
def selStep (y : ℚ) (acc : Option ℕ × DevE) (e : ℕ × ℚ × Option ℚ) : Option ℕ × DevE :=
  if eligE y e && devLtB (devOf y e) acc.2 then (some e.1, DevE.val (devOf y e)) else acc

/-- The lookups of one iteration of `_find_best_match`, in evaluation order:
`ideal_df.loc[x, f]` (raises on a missing `f` or `x`), then
`training_df[f'y{idx+1}']`, then `ideal_df[f]`; `none` models an escaping
`KeyError`, and a `None` entry of `best_fit_funcs` also raises at `.loc`. -/
def entryOf (x : ℚ) (df : IdealDf) (td : TrainingDf) (idx : ℕ) :
    Option String → Option (ℕ × ℚ × Option ℚ)
  | none => none
  | some f =>
    match df.locXY x f with
    | none => none
    | some cy =>
      match td.col idx with
      | none => none
      | some t =>
        match df.col f with
        | none => none
        | some c => some (idx + 1, cy, alignedAbsMax t df.xs c)

/-- The entry data of a whole suffix of `best_fit_funcs`, `none` as soon as
one iteration would raise. -/
def entriesOf (x : ℚ) (df : IdealDf) (td : TrainingDf) :
    ℕ → List (Option String) → Option (List (ℕ × ℚ × Option ℚ))
  | _, [] => some []
  | idx, f? :: rest =>
    match entryOf x df td idx f? with
    | none => none
    | some e => (entriesOf x df td (idx + 1) rest).map fun es => e :: es

/-- The `for idx, ideal_func in enumerate(best_fit_funcs)` loop of
`_find_best_match`: each iteration performs the lookups of `entryOf` (an
escaping `KeyError` aborts the whole call) and then the conditional update
`selStep`. -/
def matchLoop (x y : ℚ) (df : IdealDf) (td : TrainingDf) :
    ℕ → List (Option String) → Option ℕ × DevE → Except Unit (Option ℕ × DevE)
  | _, [], acc => Except.ok acc
  | idx, f? :: rest, acc =>
    match entryOf x df td idx f? with
    | none => Except.error ()
    | some e => matchLoop x y df td (idx + 1) rest (selStep y acc e)

/-- `DataProcessor._find_best_match`: returns `(best_fit, min_deviation)`,
starting from `best_fit = None`, `min_deviation = float('inf')`. -/
def findBestMatch (x y : ℚ) (funcs : List (Option String)) (df : IdealDf)
    (td : TrainingDf) : Except Unit (Option ℕ × DevE) :=
  matchLoop x y df td 0 funcs (none, DevE.inf)

/-- The `best_fit_funcs` list built by `map_test_data`: one
`_find_best_fit` result per training column `y1..y4` (`for i in range(1, 5)`). -/
def bestFitFuncs (td : TrainingDf) (df : IdealDf) : List (Option String) :=
  [td.y1, td.y2, td.y3, td.y4].map fun t => findBestFit t df.cols

/-- One output row of `map_test_data`:
`{'x': x, 'y': y, 'delta_y': min_deviation, 'ideal_func_no': best_fit}`. -/
structure ResultRow where
  x : ℚ
  y : ℚ
  delta_y : DevE
  ideal_func_no : Option ℕ
deriving DecidableEq

/-- The `for _, row in test_df.iterrows()` loop of `map_test_data`: one
`_find_best_match` call and one appended row per test point; an escaping
`KeyError` aborts the whole loop. -/
def rowsOf (df : IdealDf) (td : TrainingDf) (funcs : List (Option String)) :
    List (ℚ × ℚ) → Except Unit (List ResultRow)
  | [] => Except.ok []
  | p :: rest =>
    match findBestMatch p.1 p.2 funcs df td with
    | Except.error e => Except.error e
    | Except.ok r =>
      match rowsOf df td funcs rest with
      | Except.error e => Except.error e
      | Except.ok rs => Except.ok (⟨p.1, p.2, r.2, r.1⟩ :: rs)

/-- `DataProcessor.map_test_data` restricted to its computational core:
select the four best-fit functions, then map every test point. -/
def mapTestData (test : List (ℚ × ℚ)) (df : IdealDf) (td : TrainingDf) :
    Except Unit (List ResultRow) :=
  rowsOf df td (bestFitFuncs td df) test

/-- One precomputed FitAssignment entry for a training column: the chosen
candidate together with the max-abs-difference the matcher would recompute
for it (`none` when the candidate or its column is missing). -/
def fitEntry (df : IdealDf) (t : List ℚ) : Option (String × Option ℚ) :=
  match findBestFit t df.cols with
  | none => none
  | some f =>
    match df.col f with
    | none => none
    | some c => some (f, alignedAbsMax t df.xs c)

/-- The FitAssignment of the spec, computed once before matching: one
`fitEntry` per training column `y1..y4`. -/
def fitAssignment (df : IdealDf) (td : TrainingDf) : List (Option (String × Option ℚ)) :=
  [td.y1, td.y2, td.y3, td.y4].map (fitEntry df)

/-- The matcher loop rephrased over a precomputed FitAssignment: identical
to `matchLoop` except that the max-allowed-deviation is read from the
assignment instead of being recomputed per test point. -/
def preLoop (x y : ℚ) (df : IdealDf) :
    ℕ → List (Option (String × Option ℚ)) → Option ℕ × DevE → Except Unit (Option ℕ × DevE)
  | _, [], acc => Except.ok acc
  | _, none :: _, _ => Except.error ()
  | idx, some fm :: rest, acc =>
    match df.locXY x fm.1 with
    | none => Except.error ()
    | some cy => preLoop x y df (idx + 1) rest (selStep y acc (idx + 1, cy, fm.2))

/-- `_find_best_match` over a precomputed FitAssignment. -/
def findBestMatchPre (x y : ℚ) (df : IdealDf) (fits : List (Option (String × Option ℚ))) :
    Except Unit (Option ℕ × DevE) :=
  preLoop x y df 0 fits (none, DevE.inf)

/-! Basic lemmas about the arithmetic helpers. -/

theorem ratAbs_eq_abs (a : ℚ) : ratAbs a = |a| := by
  unfold ratAbs
  split_ifs with h
  · exact (abs_of_neg h).symm
  · exact (abs_of_nonneg (not_lt.mp h)).symm

theorem ratAbs_nonneg (a : ℚ) : 0 ≤ ratAbs a := by
  rw [ratAbs_eq_abs]
  exact abs_nonneg a

theorem ratMax_eq_max (a b : ℚ) : ratMax a b = max a b := by
  unfold ratMax
  split_ifs with h
  · exact (max_eq_right h).symm
  · exact (max_eq_left (le_of_not_le h)).symm

theorem listMax_mem : ∀ {l : List ℚ} {m : ℚ}, listMax l = some m → m ∈ l := by
  intro l
  induction l with
  | nil => intro m h; simp [listMax] at h
  | cons a l ih =>
    intro m h
    cases hl : listMax l with
    | none =>
      simp [listMax, hl] at h
      simp [h]
    | some b =>
      simp [listMax, hl] at h
      rw [← h, ratMax_eq_max]
      rcases max_cases a b with ⟨h1, _⟩ | ⟨h1, _⟩
      · rw [h1]; exact List.mem_cons_self a l
      · rw [h1]; exact List.mem_cons_of_mem a (ih hl)

theorem alignedAbsMax_nonneg {t xs c : List ℚ} {m : ℚ}
    (h : alignedAbsMax t xs c = some m) : 0 ≤ m := by
  have hm := listMax_mem h
  simp only [List.mem_filterMap] at hm
  obtain ⟨p, _, hp⟩ := hm
  cases hpl : posLookup t p.1 with
  | none => rw [hpl] at hp; simp at hp
  | some tv =>
    rw [hpl] at hp
    simp at hp
    rw [← hp]
    exact ratAbs_nonneg _

theorem le_sqrt_two_mul {d m : ℚ} (hd : 0 ≤ d) (hm : 0 ≤ m)
    (h : d * d ≤ 2 * (m * m)) : (d : ℝ) ≤ Real.sqrt 2 * (m : ℝ) := by
  have hd' : (0 : ℝ) ≤ (d : ℝ) := by exact_mod_cast hd
  have hm' : (0 : ℝ) ≤ (m : ℝ) := by exact_mod_cast hm
  have h' : (d : ℝ) * d ≤ 2 * ((m : ℝ) * m) := by exact_mod_cast h
  have h2 : Real.sqrt ((d : ℝ) * d) ≤ Real.sqrt (2 * ((m : ℝ) * m)) :=
    Real.sqrt_le_sqrt h'
  rw [Real.sqrt_mul_self hd'] at h2
  calc (d : ℝ) ≤ Real.sqrt (2 * ((m : ℝ) * m)) := h2
    _ = Real.sqrt 2 * Real.sqrt ((m : ℝ) * m) := Real.sqrt_mul (by norm_num) _
    _ = Real.sqrt 2 * m := by rw [Real.sqrt_mul_self hm']

theorem devLtB_inf (d : ℚ) : devLtB d DevE.inf = true := rfl

theorem devLtB_val {d m : ℚ} : devLtB d (DevE.val m) = true ↔ d < m := by
  simp [devLtB]

theorem eligB_none (d : ℚ) : eligB d none = false := rfl

theorem eligB_some {d m : ℚ} : eligB d (some m) = true ↔ d * d ≤ 2 * (m * m) := by
  simp [eligB]

/-! Characterization of the strict-improvement selection folds. -/

theorem selFold_char (y : ℚ) :
    ∀ (l : List (ℕ × ℚ × Option ℚ)) (acc : Option ℕ × DevE),
      (l.foldl (selStep y) acc = acc ∧
        ∀ e ∈ l, eligE y e = true → devLtB (devOf y e) acc.2 = false) ∨
      (∃ pre e post, l = pre ++ e :: post ∧ eligE y e = true ∧
        devLtB (devOf y e) acc.2 = true ∧
        (∀ e' ∈ pre, eligE y e' = true → devOf y e < devOf y e') ∧
        (∀ e' ∈ post, eligE y e' = true → devOf y e ≤ devOf y e') ∧
        l.foldl (selStep y) acc = (some e.1, DevE.val (devOf y e))) := by
  intro l
  induction l with
  | nil => intro acc; left; exact ⟨rfl, by intro e he; simp at he⟩
  | cons hd tl ih =>
    intro acc
    by_cases hc : (eligE y hd && devLtB (devOf y hd) acc.2) = true
    · have hstep : selStep y acc hd = (some hd.1, DevE.val (devOf y hd)) := by
        simp [selStep, hc]
      have hchd := (Bool.and_eq_true _ _).mp hc
      rcases ih (selStep y acc hd) with ⟨heq, hall⟩ | ⟨pre, e, post, hsplit, helig, hlt, hpre, hpost, heq⟩
      · right
        refine ⟨[], hd, tl, rfl, hchd.1, hchd.2, ?_, ?_, ?_⟩
        · intro e' he'; simp at he'
        · intro e' he' helig'
          have := hall e' he' helig'
          rw [hstep] at this
          simp only [devLtB] at this
          exact not_lt.mp (by simpa using this)
        · rw [List.foldl_cons, heq, hstep]
      · right
        have hlt' : devOf y e < devOf y hd := by
          rw [hstep] at hlt
          simpa [devLtB] using hlt
        refine ⟨hd :: pre, e, post, by rw [hsplit, List.cons_append], helig, ?_, ?_, hpost, ?_⟩
        · cases hacc : acc.2 with
          | inf => exact devLtB_inf _
          | val q =>
            rw [devLtB_val]
            have h1 : devOf y hd < q := by
              have := hchd.2
              rw [hacc] at this
              exact devLtB_val.mp this
            exact lt_trans hlt' h1
        · intro e' he' helig'
          rcases List.mem_cons.mp he' with h | h
          · rw [h]; exact hlt'
          · exact hpre e' h helig'
        · rw [List.foldl_cons, heq]
    · have hstep : selStep y acc hd = acc := by
        simp [selStep, hc]
      rcases ih (selStep y acc hd) with ⟨heq, hall⟩ | ⟨pre, e, post, hsplit, helig, hlt, hpre, hpost, heq⟩
      · left
        constructor
        · rw [List.foldl_cons, heq, hstep]
        · intro e' he' helig'
          rcases List.mem_cons.mp he' with h | h
          · rw [h]
            rcases Bool.not_eq_true _ ▸ hc with _
            cases hdl : devLtB (devOf y hd) acc.2 with
            | false => rfl
            | true =>
              exfalso
              rw [h] at helig'
              rw [helig', hdl] at hc
              exact hc rfl
          · have := hall e' h helig'
            rw [hstep] at this
            exact this
      · right
        have hlt2 : devLtB (devOf y e) acc.2 = true := by rw [← hstep]; exact hlt
        refine ⟨hd :: pre, e, post, by rw [hsplit, List.cons_append], helig, hlt2, ?_, hpost, ?_⟩
        · intro e' he' helig'
          rcases List.mem_cons.mp he' with h | h
          · rw [h]
            cases hacc : acc.2 with
            | inf =>
              exfalso
              rw [h] at helig'
              rw [helig'] at hc
              rw [hacc] at hc
              simp [devLtB] at hc
            | val q =>
              have h1 : devOf y e < q := by
                rw [hacc] at hlt2
                exact devLtB_val.mp hlt2
              have h2 : q ≤ devOf y hd := by
                rw [h] at helig'
                rw [helig'] at hc
                rw [hacc] at hc
                simp only [Bool.true_and] at hc
                simpa [devLtB] using hc
              exact lt_of_lt_of_le h1 h2
          · exact hpre e' h helig'
        · rw [List.foldl_cons, heq]

theorem bestFitFold_char (t : List ℚ) :
    ∀ (l : List (String × List ℚ)) (b : String) (m : ℚ),
      (l.foldl (bestFitStep t) (some (b, m)) = some (b, m) ∧
        ∀ c ∈ l, m ≤ mse t c.2) ∨
      (∃ pre c post, l = pre ++ c :: post ∧ mse t c.2 < m ∧
        (∀ d ∈ pre, mse t c.2 < mse t d.2) ∧
        (∀ d ∈ post, mse t c.2 ≤ mse t d.2) ∧
        l.foldl (bestFitStep t) (some (b, m)) = some (c.1, mse t c.2)) := by
  intro l
  induction l with
  | nil => intro b m; left; exact ⟨rfl, by intro c hc; simp at hc⟩
  | cons hd tl ih =>
    intro b m
    by_cases hc : mse t hd.2 < m
    · have hstep : bestFitStep t (some (b, m)) hd = some (hd.1, mse t hd.2) := by
        simp [bestFitStep, hc]
      rcases ih hd.1 (mse t hd.2) with ⟨heq, hall⟩ | ⟨pre, c, post, hsplit, hlt, hpre, hpost, heq⟩
      · right
        refine ⟨[], hd, tl, rfl, hc, ?_, hall, ?_⟩
        · intro d hd'; simp at hd'
        · rw [List.foldl_cons, hstep, heq]
      · right
        refine ⟨hd :: pre, c, post, by rw [hsplit, List.cons_append], lt_trans hlt hc, ?_, hpost, ?_⟩
        · intro d hd'
          rcases List.mem_cons.mp hd' with h | h
          · rw [h]; exact hlt
          · exact hpre d h
        · rw [List.foldl_cons, hstep, heq]
    · have hstep : bestFitStep t (some (b, m)) hd = some (b, m) := by
        simp [bestFitStep, hc]
      rcases ih b m with ⟨heq, hall⟩ | ⟨pre, c, post, hsplit, hlt, hpre, hpost, heq⟩
      · left
        constructor
        · rw [List.foldl_cons, hstep, heq]
        · intro c hc'
          rcases List.mem_cons.mp hc' with h | h
          · rw [h]; exact not_lt.mp hc
          · exact hall c h
      · right
        refine ⟨hd :: pre, c, post, by rw [hsplit, List.cons_append],
          hlt, ?_, hpost, ?_⟩
        · intro d hd'
          rcases List.mem_cons.mp hd' with h | h
          · rw [h]; exact lt_of_lt_of_le hlt (not_lt.mp hc)
          · exact hpre d h
        · rw [List.foldl_cons, hstep, heq]

/-! Bridging the matcher loop to the entry list and the selection fold. -/

theorem matchLoop_eq_entries (x y : ℚ) (df : IdealDf) (td : TrainingDf) :
    ∀ (rest : List (Option String)) (idx : ℕ) (acc : Option ℕ × DevE),
      matchLoop x y df td idx rest acc =
        match entriesOf x df td idx rest with
        | none => Except.error ()
        | some es => Except.ok (es.foldl (selStep y) acc) := by
  intro rest
  induction rest with
  | nil => intro idx acc; rfl
  | cons f? rest ih =>
    intro idx acc
    cases he : entryOf x df td idx f? with
    | none => simp [matchLoop, entriesOf, he]
    | some e =>
      cases hes : entriesOf x df td (idx + 1) rest with
      | none => simp [matchLoop, entriesOf, he, hes, ih rest.length, ih (idx + 1)]
      | some es => simp [matchLoop, entriesOf, he, hes, ih (idx + 1)]

theorem entryOf_eq_some {x : ℚ} {df : IdealDf} {td : TrainingDf} {i : ℕ}
    {f? : Option String} {e : ℕ × ℚ × Option ℚ}
    (h : entryOf x df td i f? = some e) :
    ∃ f cy t c, f? = some f ∧ df.locXY x f = some cy ∧ td.col i = some t ∧
      df.col f = some c ∧ e = (i + 1, cy, alignedAbsMax t df.xs c) := by
  cases f? with
  | none => simp [entryOf] at h
  | some f =>
    cases h1 : df.locXY x f with
    | none => rw [entryOf, h1] at h; simp at h
    | some cy =>
      cases h2 : td.col i with
      | none => rw [entryOf, h1, h2] at h; simp at h
      | some t =>
        cases h3 : df.col f with
        | none => rw [entryOf, h1, h2, h3] at h; simp at h
        | some c =>
          rw [entryOf, h1, h2, h3] at h
          exact ⟨f, cy, t, c, rfl, h1, rfl, h3, (Option.some_inj.mp h).symm⟩

theorem entriesOf_get (x : ℚ) (df : IdealDf) (td : TrainingDf) :
    ∀ (rest : List (Option String)) (idx : ℕ) (es : List (ℕ × ℚ × Option ℚ)),
      entriesOf x df td idx rest = some es →
      ∀ (j : ℕ) (e : ℕ × ℚ × Option ℚ), es.get? j = some e →
        ∃ f?, rest.get? j = some f? ∧ entryOf x df td (idx + j) f? = some e := by
  intro rest
  induction rest with
  | nil =>
    intro idx es h j e hj
    simp [entriesOf] at h
    rw [h] at hj
    simp at hj
  | cons f? rest ih =>
    intro idx es h j e hj
    cases he : entryOf x df td idx f? with
    | none => rw [entriesOf, he] at h; simp at h
    | some e0 =>
      rw [entriesOf, he] at h
      cases hes : entriesOf x df td (idx + 1) rest with
      | none => rw [hes] at h; simp at h
      | some es' =>
        rw [hes] at h
        simp at h
        rw [← h] at hj
        cases j with
        | zero =>
          rw [List.get?_cons_zero] at hj
          rw [← Option.some_inj.mp hj, Nat.add_zero]
          exact ⟨f?, rfl, he⟩
        | succ j' =>
          rw [List.get?_cons_succ] at hj
          obtain ⟨g?, hg1, hg2⟩ := ih (idx + 1) es' hes j' e hj
          refine ⟨g?, by rw [List.get?_cons_succ]; exact hg1, ?_⟩
          have harith : idx + (j' + 1) = idx + 1 + j' := by omega
          rw [harith]
          exact hg2

theorem findBestMatch_no_elig {x y : ℚ} {funcs : List (Option String)} {df : IdealDf}
    {td : TrainingDf} {es : List (ℕ × ℚ × Option ℚ)}
    (hes : entriesOf x df td 0 funcs = some es)
    (hnone : ∀ e ∈ es, eligE y e = false) :
    findBestMatch x y funcs df td = Except.ok (none, DevE.inf) := by
  have hbridge := matchLoop_eq_entries x y df td funcs 0 (none, DevE.inf)
  simp only [hes] at hbridge
  rw [findBestMatch, hbridge]
  rcases selFold_char y es (none, DevE.inf) with ⟨heq, _⟩ |
    ⟨pre, e, post, hsplit, helig, _, _, _, _⟩
  · rw [heq]
  · exfalso
    have hmem : e ∈ es := by
      rw [hsplit]
      exact List.mem_append_right _ (List.mem_cons_self _ _)
    rw [hnone e hmem] at helig
    exact Bool.false_ne_true helig

theorem rowsOf_ok_get {df : IdealDf} {td : TrainingDf} {funcs : List (Option String)} :
    ∀ (test : List (ℚ × ℚ)) (rows : List ResultRow) (i : ℕ) (p : ℚ × ℚ),
      rowsOf df td funcs test = Except.ok rows → test.get? i = some p →
      ∃ r, findBestMatch p.1 p.2 funcs df td = Except.ok r ∧
        rows.get? i = some ⟨p.1, p.2, r.2, r.1⟩ := by
  intro test
  induction test with
  | nil => intro rows i p h hp; simp at hp
  | cons q rest ih =>
    intro rows i p h hp
    cases hm : findBestMatch q.1 q.2 funcs df td with
    | error e =>
      simp only [rowsOf, hm] at h
      exact Except.noConfusion h
    | ok r =>
      cases hrs : rowsOf df td funcs rest with
      | error e =>
        simp only [rowsOf, hm, hrs] at h
        exact Except.noConfusion h
      | ok rs =>
        simp only [rowsOf, hm, hrs] at h
        injection h with h
        cases i with
        | zero =>
          rw [List.get?_cons_zero] at hp
          have hpq : q = p := Option.some_inj.mp hp
          subst hpq
          refine ⟨r, hm, ?_⟩
          rw [← h, List.get?_cons_zero]
        | succ i' =>
          rw [List.get?_cons_succ] at hp
          obtain ⟨r', hr1, hr2⟩ := ih rs i' p hrs hp
          refine ⟨r', hr1, ?_⟩
          rw [← h, List.get?_cons_succ]
          exact hr2

theorem preLoop_eq_matchLoop (x y : ℚ) (df : IdealDf) (td : TrainingDf) :
    ∀ (ts : List (List ℚ)) (idx : ℕ) (acc : Option ℕ × DevE),
      (∀ j, ts.get? j = td.col (idx + j)) →
      preLoop x y df idx (ts.map (fitEntry df)) acc =
        matchLoop x y df td idx (ts.map fun t => findBestFit t df.cols) acc := by
  intro ts
  induction ts with
  | nil => intro idx acc H; rfl
  | cons t ts ih =>
    intro idx acc H
    have H0 : td.col idx = some t := by
      have h0 := H 0
      rw [List.get?_cons_zero, Nat.add_zero] at h0
      exact h0.symm
    have H' : ∀ j, ts.get? j = td.col (idx + 1 + j) := by
      intro j
      have hj := H (j + 1)
      rw [List.get?_cons_succ] at hj
      have harith : idx + (j + 1) = idx + 1 + j := by omega
      rw [harith] at hj
      exact hj
    simp only [List.map_cons]
    cases hf : findBestFit t df.cols with
    | none =>
      have hfe : fitEntry df t = none := by simp only [fitEntry, hf]
      rw [hfe]
      rfl
    | some f =>
      cases hcol : df.col f with
      | none =>
        have hfe : fitEntry df t = none := by simp only [fitEntry, hf, hcol]
        have hloc : df.locXY x f = none := by
          cases hx : idxOf? x df.xs <;> simp [IdealDf.locXY, hcol, hx]
        have he : entryOf x df td idx (some f) = none := by
          simp only [entryOf, hloc]
        rw [hfe]
        simp only [preLoop, matchLoop, he]
      | some c =>
        have hfe : fitEntry df t = some (f, alignedAbsMax t df.xs c) := by
          simp only [fitEntry, hf, hcol]
        cases hloc : df.locXY x f with
        | none =>
          have he : entryOf x df td idx (some f) = none := by
            simp only [entryOf, hloc]
          rw [hfe]
          simp only [preLoop, matchLoop, he, hloc]
        | some cy =>
          have he : entryOf x df td idx (some f) =
              some (idx + 1, cy, alignedAbsMax t df.xs c) := by
            simp only [entryOf, hloc, H0, hcol]
          rw [hfe]
          simp only [preLoop, matchLoop, he, hloc]
          exact ih (idx + 1) (selStep y acc (idx + 1, cy, alignedAbsMax t df.xs c)) H'

/-! Claim theorems. -/

/-- Claim C1: for every training series and every non-empty candidate set
iterated in a fixed order, `_find_best_fit` returns a candidate whose MSE
against the training series is less than or equal to the MSE of every
candidate in the set, and when several candidates attain the exact minimum
the first one encountered in iteration order is returned (every candidate
strictly earlier has strictly larger MSE). -/
theorem find_best_fit_minimal (t : List ℚ) (cands : List (String × List ℚ))
    (h : cands ≠ []) :
    ∃ pre c post, cands = pre ++ c :: post ∧
      findBestFit t cands = some c.1 ∧
      (∀ d ∈ cands, mse t c.2 ≤ mse t d.2) ∧
      (∀ d ∈ pre, mse t c.2 < mse t d.2) := by
  cases cands with
  | nil => exact absurd rfl h
  | cons c0 rest =>
    have hfold : findBestFit t (c0 :: rest) =
        (rest.foldl (bestFitStep t) (some (c0.1, mse t c0.2))).map Prod.fst := by
      rw [findBestFit, List.foldl_cons]
      rfl
    rcases bestFitFold_char t rest c0.1 (mse t c0.2) with ⟨heq, hall⟩ |
      ⟨pre, c, post, hsplit, hlt, hpre, hpost, heq⟩
    · refine ⟨[], c0, rest, rfl, ?_, ?_, ?_⟩
      · rw [hfold, heq]
        rfl
      · intro d hd
        rcases List.mem_cons.mp hd with h1 | h1
        · rw [h1]
        · exact hall d h1
      · intro d hd
        simp at hd
    · refine ⟨c0 :: pre, c, post, by rw [hsplit, List.cons_append], ?_, ?_, ?_⟩
      · rw [hfold, heq]
        rfl
      · intro d hd
        rcases List.mem_cons.mp hd with h1 | h1
        · rw [h1]
          exact le_of_lt hlt
        · rw [hsplit] at h1
          rcases List.mem_append.mp h1 with h2 | h2
          · exact le_of_lt (hpre d h2)
          · rcases List.mem_cons.mp h2 with h3 | h3
            · rw [h3]
            · exact hpost d h3
      · intro d hd
        rcases List.mem_cons.mp hd with h1 | h1
        · rw [h1]
          exact hlt
        · exact hpre d h1

/-- Witness for C1 at a concrete input: two candidates, the first with
MSE 0 and the second with MSE 25; the first is returned. -/
theorem find_best_fit_minimal_witness :
    (([("a", [(0 : ℚ)]), ("b", [5])] : List (String × List ℚ)) ≠ []) ∧
    (∃ pre c post, ([("a", [(0 : ℚ)]), ("b", [5])] : List (String × List ℚ)) =
        pre ++ c :: post ∧
      findBestFit [(0 : ℚ)] [("a", [0]), ("b", [5])] = some c.1 ∧
      (∀ d ∈ ([("a", [(0 : ℚ)]), ("b", [5])] : List (String × List ℚ)),
        mse [(0 : ℚ)] c.2 ≤ mse [(0 : ℚ)] d.2) ∧
      (∀ d ∈ pre, mse [(0 : ℚ)] c.2 < mse [(0 : ℚ)] d.2)) :=
  ⟨by simp, find_best_fit_minimal [(0 : ℚ)] [("a", [0]), ("b", [5])] (by simp)⟩

/-- Claim C2: whenever `_find_best_match` assigns a candidate, the returned
deviation `|y - candidate_y(x)|` is at most `sqrt 2` times the aligned
maximum absolute difference that the loop computes for the training series
that selected that candidate (its max-allowed-deviation). -/
theorem best_match_deviation_within_tolerance (x y : ℚ) (funcs : List (Option String))
    (df : IdealDf) (td : TrainingDf) (k : ℕ) (dv : DevE)
    (h : findBestMatch x y funcs df td = Except.ok (some k, dv)) :
    ∃ f cy t c m, funcs.get? (k - 1) = some (some f) ∧
      df.locXY x f = some cy ∧ dv = DevE.val (ratAbs (y - cy)) ∧
      td.col (k - 1) = some t ∧ df.col f = some c ∧
      alignedAbsMax t df.xs c = some m ∧
      ((ratAbs (y - cy) : ℚ) : ℝ) ≤ Real.sqrt 2 * (m : ℝ) := by
  have hbridge := matchLoop_eq_entries x y df td funcs 0 (none, DevE.inf)
  rw [findBestMatch] at h
  cases hes : entriesOf x df td 0 funcs with
  | none =>
    simp only [hes] at hbridge
    rw [hbridge] at h
    exact Except.noConfusion h
  | some es =>
    simp only [hes] at hbridge
    rw [hbridge] at h
    have hfold := Except.ok.inj h
    rcases selFold_char y es (none, DevE.inf) with ⟨heq, _⟩ |
      ⟨pre, e, post, hsplit, helig, _, _, _, heq⟩
    · rw [heq] at hfold
      have hfst := congrArg Prod.fst hfold
      simp at hfst
    · rw [heq] at hfold
      have hk : e.1 = k := by
        have hfst := congrArg Prod.fst hfold
        simpa using hfst
      have hdv : dv = DevE.val (devOf y e) := by
        have hsnd := congrArg Prod.snd hfold
        simpa using hsnd.symm
      have hget : es.get? pre.length = some e := by
        rw [hsplit, List.get?_append_right (le_refl pre.length)]
        simp
      obtain ⟨f?, hf1, hf2⟩ := entriesOf_get x df td funcs 0 es hes pre.length e hget
      obtain ⟨f, cy, t, c, hfeq, hloc, htd, hcol, heeq⟩ := entryOf_eq_some hf2
      have he1 : e.1 = pre.length + 1 := by
        rw [heeq]
        simp
      have hk1 : k = pre.length + 1 := by rw [← hk, he1]
      have hkm1 : k - 1 = pre.length := by omega
      have hdev : devOf y e = ratAbs (y - cy) := by
        rw [heeq, devOf]
      have helig' : eligB (ratAbs (y - cy)) (alignedAbsMax t df.xs c) = true := by
        have := helig
        rw [eligE, hdev] at this
        rw [heeq] at this
        exact this
      cases ham : alignedAbsMax t df.xs c with
      | none =>
        rw [ham, eligB_none] at helig'
        exact absurd helig' (by simp)
      | some m =>
        rw [ham] at helig'
        have hsq := eligB_some.mp helig'
        refine ⟨f, cy, t, c, m, ?_, hloc, ?_, ?_, hcol, ham, ?_⟩
        · rw [hkm1, ← hfeq]
          simpa using hf1
        · rw [hdv, hdev]
        · rw [hkm1]
          simpa using htd
        · exact le_sqrt_two_mul (ratAbs_nonneg _) (alignedAbsMax_nonneg ham) hsq

/-- Witness for C2 at a concrete input: the test point (0, 0) is assigned to
candidate "f" with deviation 0, within the tolerance of training series 1. -/
theorem best_match_deviation_within_tolerance_witness :
    (findBestMatch 0 0 [some "f"] ⟨[0], [("f", [0])]⟩ ⟨[0], [0], [0], [0]⟩ =
      Except.ok (some 1, DevE.val 0)) ∧
    (∃ f cy t c m, ([some "f"] : List (Option String)).get? (1 - 1) = some (some f) ∧
      IdealDf.locXY ⟨[0], [("f", [0])]⟩ 0 f = some cy ∧
      DevE.val 0 = DevE.val (ratAbs (0 - cy)) ∧
      TrainingDf.col ⟨[0], [0], [0], [0]⟩ (1 - 1) = some t ∧
      IdealDf.col ⟨[0], [("f", [0])]⟩ f = some c ∧
      alignedAbsMax t [0] c = some m ∧
      ((ratAbs (0 - cy) : ℚ) : ℝ) ≤ Real.sqrt 2 * (m : ℝ)) :=
  ⟨by norm_num [findBestMatch, matchLoop, entryOf, IdealDf.locXY, IdealDf.col,
      TrainingDf.col, colLookup, idxOf?, nth?, alignedAbsMax, posLookup, listMax,
      ratAbs, ratMax, selStep, eligE, eligB, devOf, devLtB],
    best_match_deviation_within_tolerance 0 0 [some "f"] ⟨[0], [("f", [0])]⟩
      ⟨[0], [0], [0], [0]⟩ 1 (DevE.val 0)
      (by norm_num [findBestMatch, matchLoop, entryOf, IdealDf.locXY, IdealDf.col,
        TrainingDf.col, colLookup, idxOf?, nth?, alignedAbsMax, posLookup, listMax,
        ratAbs, ratMax, selStep, eligE, eligB, devOf, devLtB])⟩

/-- Claim C3 counterexample: a test point whose x value (1) is absent from
the shared ideal-function index ([0]) makes `map_test_data` abort with the
uncaught lookup error instead of skipping the candidate, so the overall
match does not survive a missing x. -/
theorem missing_x_aborts_match :
    mapTestData [(1, 0)] ⟨[0], [("f", [0])]⟩ ⟨[0], [0], [0], [0]⟩ =
      Except.error () := by
  norm_num [mapTestData, rowsOf, bestFitFuncs, findBestFit, bestFitStep, mse,
    findBestMatch, matchLoop, entryOf, IdealDf.locXY, IdealDf.col, TrainingDf.col,
    colLookup, idxOf?, nth?]

/-- Claim C3 (amended): when a test point's x value is absent from the
shared x index of the ideal-function frame and there is at least one entry
to process, `_find_best_match` raises (models the uncaught `KeyError` from
`ideal_df.loc[x_val, ideal_func]`), aborting the match for the whole test
set rather than skipping the candidate. -/
theorem missing_x_errors (x y : ℚ) (funcs : List (Option String)) (df : IdealDf)
    (td : TrainingDf) (h1 : funcs ≠ []) (h2 : idxOf? x df.xs = none) :
    findBestMatch x y funcs df td = Except.error () := by
  cases funcs with
  | nil => exact absurd rfl h1
  | cons f? rest =>
    cases f? with
    | none => rfl
    | some f =>
      have hloc : df.locXY x f = none := by
        cases hcol : df.col f <;> simp [IdealDf.locXY, hcol, h2]
      have he : entryOf x df td 0 (some f) = none := by
        simp only [entryOf, hloc]
      rw [findBestMatch, matchLoop, he]

/-- Witness for the amended C3 at a concrete input: x = 1 is not a label of
the index [0], and the match call errors out. -/
theorem missing_x_errors_witness :
    (([some "f"] : List (Option String)) ≠ []) ∧
    (idxOf? 1 [(0 : ℚ)] = none) ∧
    (findBestMatch 1 0 [some "f"] ⟨[0], [("f", [0])]⟩ ⟨[0], [0], [0], [0]⟩ =
      Except.error ()) :=
  ⟨by simp, by norm_num [idxOf?],
    missing_x_errors 1 0 [some "f"] ⟨[0], [("f", [0])]⟩ ⟨[0], [0], [0], [0]⟩
      (by simp) (by norm_num [idxOf?])⟩

/-- Claim C4 (code bug): with training series y1 = [0] sampled at x = 10 and
selected candidate column [5], the training and candidate series share the
x value 10, where the absolute difference is 5 (last conjunct), so the
claimed max-allowed-deviation is `sqrt 2 * 5`; but line 182 subtracts a
RangeIndex-indexed training series (labels {0}) from an x-indexed ideal
column (labels {10}); no label is shared, the pandas maximum is NaN (none,
first conjunct), and consequently even the exactly-fitting test point
(10, 0) is left unassigned (middle conjunct). -/
theorem max_allowed_deviation_misaligned :
    alignedAbsMax [0] [10] [5] = none ∧
    findBestMatch 10 0 [some "f"] ⟨[10], [("f", [5])]⟩ ⟨[0], [0], [0], [0]⟩ =
      Except.ok (none, DevE.inf) ∧
    listMax ((List.zip [(0 : ℚ)] [(5 : ℚ)]).map fun p => ratAbs (p.1 - p.2)) =
      some 5 := by
  refine ⟨by norm_num [alignedAbsMax, posLookup, listMax, nth?], ?_, ?_⟩
  · norm_num [findBestMatch, matchLoop, entryOf, IdealDf.locXY, IdealDf.col,
      TrainingDf.col, colLookup, idxOf?, nth?, alignedAbsMax, posLookup, listMax,
      ratAbs, ratMax, selStep, eligE, eligB, devOf, devLtB]
  · norm_num [listMax, ratAbs]

/-- Claim C5: when at least one processed entry is eligible (deviation
within its computed tolerance), `_find_best_match` returns the eligible
entry of smallest deviation; its reported number is its training-series
index, and every eligible entry strictly earlier in the iteration has a
strictly larger deviation, so on exact ties the lowest index wins. -/
theorem best_match_picks_min_deviation (x y : ℚ) (funcs : List (Option String))
    (df : IdealDf) (td : TrainingDf) (es : List (ℕ × ℚ × Option ℚ))
    (r : Option ℕ × DevE)
    (hes : entriesOf x df td 0 funcs = some es)
    (h : findBestMatch x y funcs df td = Except.ok r)
    (hex : ∃ e ∈ es, eligE y e = true) :
    ∃ pre e post, es = pre ++ e :: post ∧ eligE y e = true ∧
      e.1 = pre.length + 1 ∧
      r = (some e.1, DevE.val (devOf y e)) ∧
      (∀ e' ∈ es, eligE y e' = true → devOf y e ≤ devOf y e') ∧
      (∀ e' ∈ pre, eligE y e' = true → devOf y e < devOf y e') := by
  have hbridge := matchLoop_eq_entries x y df td funcs 0 (none, DevE.inf)
  simp only [hes] at hbridge
  rw [findBestMatch, hbridge] at h
  have hfold := Except.ok.inj h
  rcases selFold_char y es (none, DevE.inf) with ⟨heq, hall⟩ |
    ⟨pre, e, post, hsplit, helig, _, hpre, hpost, heq⟩
  · exfalso
    obtain ⟨e, hmem, helig⟩ := hex
    have hcontra := hall e hmem helig
    simp [devLtB] at hcontra
  · have hget : es.get? pre.length = some e := by
      rw [hsplit, List.get?_append_right (le_refl pre.length)]
      simp
    obtain ⟨f?, hf1, hf2⟩ := entriesOf_get x df td funcs 0 es hes pre.length e hget
    obtain ⟨f, cy, t, c, _, _, _, _, heeq⟩ := entryOf_eq_some hf2
    have he1 : e.1 = pre.length + 1 := by
      rw [heeq]
      simp
    refine ⟨pre, e, post, hsplit, helig, he1, ?_, ?_, hpre⟩
    · rw [← hfold, heq]
    · intro e' he' helig'
      rw [hsplit] at he'
      rcases List.mem_append.mp he' with h2 | h2
      · exact le_of_lt (hpre e' h2 helig')
      · rcases List.mem_cons.mp h2 with h3 | h3
        · rw [h3]
        · exact hpost e' h3 helig'

/-- Witness for C5 at a concrete input: two eligible candidates with equal
deviation 0; the first (training series 1) wins the tie. -/
theorem best_match_picks_min_deviation_witness :
    (entriesOf 0 ⟨[0], [("f", [0]), ("g", [0])]⟩ ⟨[0], [0], [0], [0]⟩ 0
        [some "f", some "g"] = some [(1, 0, some 0), (2, 0, some 0)]) ∧
    (findBestMatch 0 0 [some "f", some "g"] ⟨[0], [("f", [0]), ("g", [0])]⟩
        ⟨[0], [0], [0], [0]⟩ = Except.ok (some 1, DevE.val 0)) ∧
    (∃ e ∈ ([(1, 0, some 0), (2, 0, some 0)] : List (ℕ × ℚ × Option ℚ)),
        eligE 0 e = true) ∧
    (∃ pre e post,
      ([(1, 0, some 0), (2, 0, some 0)] : List (ℕ × ℚ × Option ℚ)) =
        pre ++ e :: post ∧
      eligE 0 e = true ∧ e.1 = pre.length + 1 ∧
      ((some 1, DevE.val 0) : Option ℕ × DevE) = (some e.1, DevE.val (devOf 0 e)) ∧
      (∀ e' ∈ ([(1, 0, some 0), (2, 0, some 0)] : List (ℕ × ℚ × Option ℚ)),
        eligE 0 e' = true → devOf 0 e ≤ devOf 0 e') ∧
      (∀ e' ∈ pre, eligE 0 e' = true → devOf 0 e < devOf 0 e')) :=
  ⟨by norm_num [entriesOf, entryOf, IdealDf.locXY, IdealDf.col, TrainingDf.col,
      colLookup, idxOf?, nth?, alignedAbsMax, posLookup, listMax, ratAbs, ratMax],
   by norm_num [findBestMatch, matchLoop, entryOf, IdealDf.locXY, IdealDf.col,
      TrainingDf.col, colLookup, idxOf?, nth?, alignedAbsMax, posLookup, listMax,
      ratAbs, ratMax, selStep, eligE, eligB, devOf, devLtB],
   ⟨(1, 0, some 0), by norm_num, by norm_num [eligE, eligB, devOf, ratAbs]⟩,
   best_match_picks_min_deviation 0 0 [some "f", some "g"]
     ⟨[0], [("f", [0]), ("g", [0])]⟩ ⟨[0], [0], [0], [0]⟩
     [(1, 0, some 0), (2, 0, some 0)] (some 1, DevE.val 0)
     (by norm_num [entriesOf, entryOf, IdealDf.locXY, IdealDf.col, TrainingDf.col,
        colLookup, idxOf?, nth?, alignedAbsMax, posLookup, listMax, ratAbs, ratMax])
     (by norm_num [findBestMatch, matchLoop, entryOf, IdealDf.locXY, IdealDf.col,
        TrainingDf.col, colLookup, idxOf?, nth?, alignedAbsMax, posLookup, listMax,
        ratAbs, ratMax, selStep, eligE, eligB, devOf, devLtB])
     ⟨(1, 0, some 0), by norm_num, by norm_num [eligE, eligB, devOf, ratAbs]⟩⟩

/-- Claim C6: when no processed entry passes its tolerance test, the matcher
returns an unassigned result: `best_fit` is still `None` and the running
minimum is still infinite; no default candidate is forced. -/
theorem no_eligible_candidate_unassigned (x y : ℚ) (funcs : List (Option String))
    (df : IdealDf) (td : TrainingDf) (es : List (ℕ × ℚ × Option ℚ))
    (hes : entriesOf x df td 0 funcs = some es)
    (hnone : ∀ e ∈ es, eligE y e = false) :
    findBestMatch x y funcs df td = Except.ok (none, DevE.inf) :=
  findBestMatch_no_elig hes hnone

/-- Witness for C6 at a concrete input: the single candidate has deviation
95, far beyond its tolerance `sqrt 2 * 5`, and the point stays unassigned. -/
theorem no_eligible_candidate_unassigned_witness :
    (entriesOf 0 ⟨[0], [("f", [5])]⟩ ⟨[0], [0], [0], [0]⟩ 0 [some "f"] =
      some [(1, 5, some 5)]) ∧
    (∀ e ∈ ([(1, 5, some 5)] : List (ℕ × ℚ × Option ℚ)), eligE 100 e = false) ∧
    (findBestMatch 0 100 [some "f"] ⟨[0], [("f", [5])]⟩ ⟨[0], [0], [0], [0]⟩ =
      Except.ok (none, DevE.inf)) :=
  ⟨by norm_num [entriesOf, entryOf, IdealDf.locXY, IdealDf.col, TrainingDf.col,
      colLookup, idxOf?, nth?, alignedAbsMax, posLookup, listMax, ratAbs, ratMax],
   by norm_num [eligE, eligB, devOf, ratAbs],
   no_eligible_candidate_unassigned 0 100 [some "f"] ⟨[0], [("f", [5])]⟩
     ⟨[0], [0], [0], [0]⟩ [(1, 5, some 5)]
     (by norm_num [entriesOf, entryOf, IdealDf.locXY, IdealDf.col, TrainingDf.col,
        colLookup, idxOf?, nth?, alignedAbsMax, posLookup, listMax, ratAbs, ratMax])
     (by norm_num [eligE, eligB, devOf, ratAbs])⟩

/-- Claim C7 counterexample: with a non-empty training series and an empty
candidate set, `_find_best_fit` raises nothing and returns `None` normally —
there is no `EmptyInputError` anywhere in the module (its only custom
exception is `DataLoadError`, raised during CSV loading). -/
theorem empty_candidates_no_error : findBestFit [0] [] = none := rfl

/-- Claim C7 (amended): for every training series, `_find_best_fit` applied
to an empty candidate set silently returns `None` (no function selected, no
exception raised, and the partial state `best_func = None` is the result). -/
theorem find_best_fit_empty_candidates (t : List ℚ) : findBestFit t [] = none := rfl

/-- Claim C8 (code bug): the columns are "y1" and "y2" and every training
series selects the ideal function "y2" (first conjunct), yet the emitted row
for the exactly-matching test point (0, 0) records `ideal_func_no = 1` —
the training-series index `idx + 1` from line 185 — not the identifier 2 of
the chosen ideal function (second conjunct). The deviation recorded is 0. -/
theorem emitted_number_is_training_index :
    bestFitFuncs ⟨[0], [0], [0], [0]⟩ ⟨[0], [("y1", [5]), ("y2", [0])]⟩ =
      [some "y2", some "y2", some "y2", some "y2"] ∧
    mapTestData [(0, 0)] ⟨[0], [("y1", [5]), ("y2", [0])]⟩ ⟨[0], [0], [0], [0]⟩ =
      Except.ok [⟨0, 0, DevE.val 0, some 1⟩] := by
  constructor
  · norm_num [bestFitFuncs, findBestFit, bestFitStep, mse]
  · norm_num [mapTestData, rowsOf, bestFitFuncs, findBestFit, bestFitStep, mse,
      findBestMatch, matchLoop, entryOf, IdealDf.locXY, IdealDf.col, TrainingDf.col,
      colLookup, idxOf?, nth?, alignedAbsMax, posLookup, listMax, ratAbs, ratMax,
      selStep, eligE, eligB, devOf, devLtB,
      show (("y1" : String) = "y2") = False from by simp]

/-- Claim C9: the max-allowed-deviation recomputed inside the per-test-point
loop is a pure function of the fixed training and ideal data, so the
per-point recomputation is equivalent to deriving the FitAssignment once
before matching and reading it back: for every test point the two matchers
return identical results (including identical error behaviour). -/
theorem per_point_recompute_equiv_precompute (x y : ℚ) (df : IdealDf)
    (td : TrainingDf) :
    findBestMatchPre x y df (fitAssignment df td) =
      findBestMatch x y (bestFitFuncs td df) df td := by
  have H : ∀ j, [td.y1, td.y2, td.y3, td.y4].get? j = td.col (0 + j) := by
    intro j
    rw [Nat.zero_add]
    match j with
    | 0 => rfl
    | 1 => rfl
    | 2 => rfl
    | 3 => rfl
    | n + 4 => rfl
  rw [findBestMatchPre, findBestMatch, fitAssignment, bestFitFuncs]
  exact preLoop_eq_matchLoop x y df td [td.y1, td.y2, td.y3, td.y4] 0
    (none, DevE.inf) H

/-- Claim C10: for a test point with no eligible candidate the matcher
returns the pair `(None, float('inf'))` — the deviation comes back as the
infinite running minimum, not as an absent value — and `map_test_data`
records exactly this row: `delta_y` infinite alongside the null
`ideal_func_no`. -/
theorem unassigned_row_records_infinite_delta (test : List (ℚ × ℚ)) (df : IdealDf)
    (td : TrainingDf) (rows : List ResultRow) (i : ℕ) (x y : ℚ)
    (es : List (ℕ × ℚ × Option ℚ))
    (hrows : mapTestData test df td = Except.ok rows)
    (hpt : test.get? i = some (x, y))
    (hes : entriesOf x df td 0 (bestFitFuncs td df) = some es)
    (hnone : ∀ e ∈ es, eligE y e = false) :
    rows.get? i = some ⟨x, y, DevE.inf, none⟩ := by
  rw [mapTestData] at hrows
  obtain ⟨r, hr1, hr2⟩ := rowsOf_ok_get test rows i (x, y) hrows hpt
  have hr1' : findBestMatch x y (bestFitFuncs td df) df td = Except.ok r := hr1
  have hr : findBestMatch x y (bestFitFuncs td df) df td =
      Except.ok (none, DevE.inf) := findBestMatch_no_elig hes hnone
  rw [hr1'] at hr
  have hreq := Except.ok.inj hr
  rw [hreq] at hr2
  simpa using hr2

/-- Witness for C10 at a concrete input: the test point (0, 100) has no
eligible candidate, and the emitted row carries the infinite delta_y and the
null candidate. -/
theorem unassigned_row_records_infinite_delta_witness :
    (mapTestData [(0, 100)] ⟨[0], [("f", [5])]⟩ ⟨[0], [0], [0], [0]⟩ =
      Except.ok [⟨0, 100, DevE.inf, none⟩]) ∧
    (([((0 : ℚ), (100 : ℚ))] : List (ℚ × ℚ)).get? 0 = some (0, 100)) ∧
    (entriesOf 0 ⟨[0], [("f", [5])]⟩ ⟨[0], [0], [0], [0]⟩ 0
        (bestFitFuncs ⟨[0], [0], [0], [0]⟩ ⟨[0], [("f", [5])]⟩) =
      some [(1, 5, some 5), (2, 5, some 5), (3, 5, some 5), (4, 5, some 5)]) ∧
    (∀ e ∈ ([(1, 5, some 5), (2, 5, some 5), (3, 5, some 5), (4, 5, some 5)] :
        List (ℕ × ℚ × Option ℚ)), eligE 100 e = false) ∧
    (([⟨0, 100, DevE.inf, none⟩] : List ResultRow).get? 0 =
      some ⟨0, 100, DevE.inf, none⟩) :=
  ⟨by norm_num [mapTestData, rowsOf, bestFitFuncs, findBestFit, bestFitStep, mse,
      findBestMatch, matchLoop, entryOf, IdealDf.locXY, IdealDf.col, TrainingDf.col,
      colLookup, idxOf?, nth?, alignedAbsMax, posLookup, listMax, ratAbs, ratMax,
      selStep, eligE, eligB, devOf, devLtB],
   by norm_num,
   by norm_num [entriesOf, entryOf, bestFitFuncs, findBestFit, bestFitStep, mse,
      IdealDf.locXY, IdealDf.col, TrainingDf.col, colLookup, idxOf?, nth?,
      alignedAbsMax, posLookup, listMax, ratAbs, ratMax],
   by norm_num [eligE, eligB, devOf, ratAbs],
   unassigned_row_records_infinite_delta [(0, 100)] ⟨[0], [("f", [5])]⟩
     ⟨[0], [0], [0], [0]⟩ [⟨0, 100, DevE.inf, none⟩] 0 0 100
     [(1, 5, some 5), (2, 5, some 5), (3, 5, some 5), (4, 5, some 5)]
     (by norm_num [mapTestData, rowsOf, bestFitFuncs, findBestFit, bestFitStep, mse,
        findBestMatch, matchLoop, entryOf, IdealDf.locXY, IdealDf.col, TrainingDf.col,
        colLookup, idxOf?, nth?, alignedAbsMax, posLookup, listMax, ratAbs, ratMax,
        selStep, eligE, eligB, devOf, devLtB])
     (by norm_num)
     (by norm_num [entriesOf, entryOf, bestFitFuncs, findBestFit, bestFitStep, mse,
        IdealDf.locXY, IdealDf.col, TrainingDf.col, colLookup, idxOf?, nth?,
        alignedAbsMax, posLookup, listMax, ratAbs, ratMax])
     (by norm_num [eligE, eligB, devOf, ratAbs])⟩
